import Mathlib

/-!
Verification of the tk-3dsmax engine (`engine.py`) against its
natural-language specification.  The Python code is shallowly embedded:
pure helpers become Lean functions, the engine's mutable tracking state
becomes explicit state records threaded through step functions, host/Qt
calls that this repository does not own are modelled by parameters
(e.g. whether a modal exec raises, whether a dialog raises on close).
-/

namespace TkMax

/-! ## Version resolver (`MaxEngine._max_version_to_year`)

Source: `year = 2000 + (math.ceil(version / 1000.0) - 2)`.
`version / 1000.0` is CPython int-by-float true division: the integer
is first converted to an IEEE-754 binary64 double (`PyLong_AsDouble`),
which raises `OverflowError` when the rounded magnitude reaches
`2^1024`, and the division is then correctly rounded.  Doubles are
embedded as the exact rationals they denote, and rounding is modelled
exactly: round to nearest, ties to even, 53-bit significands down to
the subnormal scale `2^-1074`.  `math.ceil` of a finite double is
exact, and the surrounding integer arithmetic is exact. -/

/-- Round a rational to the nearest integer, ties to even. -/
def rnInt (y : ℚ) : ℤ :=
  let f := ⌊y⌋
  let r := y - f
  if r < 1/2 then f
  else if 1/2 < r then f + 1
  else if f % 2 = 0 then f else f + 1

/-- The binary64 quantization scale for a positive magnitude `x`:
53-bit significands in the normal range, the fixed scale `2^-1074`
below it. -/
def floatScale (x : ℚ) : ℤ :=
  max (Int.log 2 x - 52) (-1074)

/-- Round-to-nearest-even binary64 value of a positive rational, with
unbounded exponent; overflow past the largest finite double is checked
by the caller. -/
def roundPos (x : ℚ) : ℚ :=
  rnInt (x / 2 ^ floatScale x) * 2 ^ floatScale x

/-- Round-to-nearest-even binary64 value of a rational (exact). -/
def roundDouble (x : ℚ) : ℚ :=
  if 0 < x then roundPos x
  else if x < 0 then -roundPos (-x)
  else 0

/-- CPython integer-to-double conversion (`PyLong_AsDouble`):
correctly rounded, `OverflowError` (here `none`) when the rounded
magnitude reaches `2^1024`. -/
def toDouble (v : ℤ) : Option ℚ :=
  if |roundDouble (v : ℚ)| < 2 ^ (1024 : ℕ) then some (roundDouble (v : ℚ))
  else none

/-- IEEE-754 binary64 division of finite doubles, correctly rounded
(the divisor in this program is always `1000.0`, so the quotient of a
finite dividend cannot overflow). -/
def floatDiv (a b : ℚ) : ℚ :=
  roundDouble (a / b)

/-- `_max_version_to_year`: `2000 + (math.ceil(version / 1000.0) - 2)`;
`none` models the `OverflowError` that `version / 1000.0` raises for
integers beyond double range. -/
def max_version_to_year (version : ℤ) : Option ℤ :=
  match toDouble version with
  | none => none
  | some fv => some (2000 + (Int.ceil (floatDiv fv 1000) - 2))

/-- The formula the spec states, written independently of the source:
`year = 2000 + ceil(version/1000) - 2`, with exact arithmetic. -/
def spec_version_to_year (version : ℤ) : ℤ :=
  2000 + Int.ceil ((version : ℚ) / 1000) - 2

/-! ## Logging shim (`MaxEngine._emit_log_message` / `_print_output`)

Source:
```
msg_str = handler.format(record)
self.async_execute_in_main_thread(self._print_output, msg_str)
```
and `_print_output` does `print(msg)`.  The console is a list of lines;
the handler formatter is an external parameter.  No timestamp, level
check or buffering appears anywhere in this code. -/

def print_output (console : List String) (msg : String) : List String :=
  console ++ [msg]

def emit_log_message (console : List String) (format : Nat → String)
    (record : Nat) : List String :=
  print_output console (format record)

/-! ## Startup command dispatcher (`MaxEngine._run_app_instance_commands`)

A registered command is its menu name, the owning app instance name
(`value["properties"].get("app")`, absent for engine-level commands) and
its callback, identified by a number.  `self.commands` is a Python dict,
so command names are unique; Python dicts are embedded as association
lists with insertion order and overwrite-in-place assignment. -/

structure Command where
  name : String
  app : Option String
  callback : Nat
  deriving Repr, DecidableEq

/-- Python dict item assignment `d[k] = v`: overwrite in place when the
key exists, else append. -/
def dictSet (d : List (String × Nat)) (k : String) (v : Nat) :
    List (String × Nat) :=
  match d with
  | [] => [(k, v)]
  | (k₁, v₁) :: rest =>
      if k₁ = k then (k, v) :: rest else (k₁, v₁) :: dictSet rest k v

/-- `app_instance_commands.setdefault(app_instance.instance_name, {})`
followed by `command_dict[command_name] = value["callback"]`. -/
def setdefaultSet (reg : List (String × List (String × Nat)))
    (app k : String) (v : Nat) : List (String × List (String × Nat)) :=
  match reg with
  | [] => [(app, dictSet [] k v)]
  | (a, d) :: rest =>
      if a = app then (a, dictSet d k v) :: rest
      else (a, d) :: setdefaultSet rest app k v

/-- Body of the first loop of `_run_app_instance_commands` for one
registered command: skip it when it carries no app, else add it to its
app instance's command dictionary. -/
def registerStep (reg : List (String × List (String × Nat)))
    (c : Command) : List (String × List (String × Nat)) :=
  match c.app with
  | none => reg
  | some app => setdefaultSet reg app c.name c.callback

/-- First loop of `_run_app_instance_commands`: build the dictionary
mapping app instance names to dictionaries of the commands they
registered. -/
def build_app_instance_commands (commands : List Command) :
    List (String × List (String × Nat)) :=
  commands.foldl registerStep []

/-- `app_instance_commands.get(app_instance_name)` (`None` if absent). -/
def dictGet (reg : List (String × List (String × Nat))) (app : String) :
    Option (List (String × Nat)) :=
  (reg.find? (fun p => p.1 = app)).map Prod.snd

/-- `command_dict.get(setting_command_name)` (`None` if absent). -/
def cmdGet (d : List (String × Nat)) (k : String) : Option Nat :=
  (d.find? (fun p => p.1 = k)).map Prod.snd

/-- Observable effects of one pass over a startup directive: warnings
logged and callbacks invoked. -/
inductive DispatchEvent where
  | warnUnknownApp (app : String)
  | debugRun (app : String) (cmd : String)
  | invoke (callback : Nat)
  | warnUnknownCommand (app : String) (cmd : String) (known : List String)
  deriving Repr, DecidableEq

/-- Body of the second loop of `_run_app_instance_commands` for one
`run_at_startup` entry `{app_instance, name}`. -/
def processDirective (reg : List (String × List (String × Nat)))
    (app name : String) : List DispatchEvent :=
  match dictGet reg app with
  | none => [.warnUnknownApp app]
  | some d =>
      if name = "" then
        d.flatMap (fun c => [.debugRun app c.1, .invoke c.2])
      else
        match cmdGet d name with
        | some cb => [.debugRun app name, .invoke cb]
        | none => [.warnUnknownCommand app name (d.map Prod.fst)]

/-- `_run_app_instance_commands`: build the registry, then process each
startup directive in order. -/
def run_app_instance_commands (commands : List Command)
    (run_at_startup : List (String × String)) : List DispatchEvent :=
  run_at_startup.flatMap fun dir =>
    processDirective (build_app_instance_commands commands) dir.1 dir.2

/-- The callbacks actually invoked, in order. -/
def invokedCallbacks (evs : List DispatchEvent) : List Nat :=
  evs.filterMap fun e =>
    match e with
    | .invoke cb => some cb
    | _ => none

/-- The commands an app instance registered, in registration order —
the reference against which the built dictionary is checked. -/
def registeredCommands (commands : List Command) (app : String) :
    List (String × Nat) :=
  (commands.filter (fun c => c.app = some app)).map fun c =>
    (c.name, c.callback)

/-! ## `MaxEngine.show_panel`

The host main window's child hierarchy holds the dock widget wrappers;
`findChild(QtGui.QDockWidget, dock_widget_id)` searches it by
`objectName`.  A constructed widget instance is identified by a number
drawn from an allocator, mirroring Qt object identity.  Whether
`main_window.restoreDockWidget` succeeds for a given identifier is an
external host condition, modelled by the `restorable` set.  For host
years at or below 2017 docking is unsupported and the call falls back
to the inherited modeless-dialog path, which is outside this code. -/

structure DockWidget where
  objectName : String
  widgetId : Nat
  floating : Bool
  shown : Bool
  deriving Repr, DecidableEq

structure PanelState where
  children : List DockWidget
  dock_widgets : List String
  nextWidgetId : Nat
  restorable : List String
  deriving Repr, DecidableEq

/-- `dock_widget_id = "sgtk_dock_widget_" + panel_id` -/
def dock_widget_id (panel_id : String) : String :=
  "sgtk_dock_widget_" ++ panel_id

/-- `main_window.findChild(QtGui.QDockWidget, dock_widget_id)` -/
def findChild (children : List DockWidget) (objName : String) :
    Option DockWidget :=
  children.find? fun dw => dw.objectName = objName

/-- Effect of the tail of `show_panel` on the addressed dock widget:
`restoreDockWidget` when the host can restore it, else `addDockWidget`
to the right dock area with `setFloating(True)`, then
`dock_widget.show()`. -/
def dockUpdate (restorable : List String) (objName : String)
    (dw : DockWidget) : DockWidget :=
  if dw.objectName = objName then
    if objName ∈ restorable then { dw with shown := true }
    else { dw with floating := true, shown := true }
  else dw

/-- The tail of `show_panel` applied inside the child hierarchy. -/
def dockAndShow (children : List DockWidget) (restorable : List String)
    (objName : String) : List DockWidget :=
  children.map (dockUpdate restorable objName)

inductive PanelResult where
  | fallbackDialog
  | docked (widgetId : Nat)
  deriving Repr, DecidableEq

/-- `show_panel(panel_id, ...)`: fall back to a modeless dialog on
pre-2018 hosts; otherwise reuse the dock widget wrapper found in the
child hierarchy, or construct the widget, wrap it, track it and dock
it.  Returns the widget instance shown in the panel. -/
def show_panel (year : ℤ) (s : PanelState) (panel_id : String) :
    PanelState × PanelResult :=
  if year ≤ 2017 then (s, .fallbackDialog)
  else
    let dwId := dock_widget_id panel_id
    match findChild s.children dwId with
    | none =>
        let wid := s.nextWidgetId
        let dw : DockWidget := ⟨dwId, wid, false, false⟩
        let s₁ : PanelState :=
          { s with
            children := s.children ++ [dw]
            dock_widgets := s.dock_widgets ++ [dwId]
            nextWidgetId := wid + 1 }
        ({ s₁ with children := dockAndShow s₁.children s₁.restorable dwId },
          .docked wid)
    | some dw =>
        ({ s with children := dockAndShow s.children s.restorable dwId },
          .docked dw.widgetId)

/-! ## `MaxEngine.show_modal`

`tk_3dsmax.MaxScript.disable_menu` / `enable_menu` toggle the in-host
menu; `_create_dialog_with_widget` comes from the external framework
and yields a dialog and its widget (the widget is identified by a
number); whether `dialog.exec_()` completes with a status code or
raises is an external outcome.  `QtGui.QDialog.DialogCode.Rejected`
is `0`.  The inner `try/finally` switches `_parent_to_max` off around
dialog creation and restores it to `True`. -/

inductive ExecOutcome where
  | ok (code : ℤ)
  | raises
  deriving Repr, DecidableEq

structure ModalState where
  menuEnabled : Bool
  parentToMax : Bool
  deriving Repr, DecidableEq

inductive ModalLog where
  | errorNoUI
  | errorModalException
  deriving Repr, DecidableEq

def rejectedCode : ℤ := 0

/-- `show_modal(title, bundle, widget_class, ...)`: returns the final
engine state, the returned value (`None` without a UI, else the
(status, widget) pair) and the errors logged. -/
def show_modal (hasUI : Bool) (s : ModalState) (exec : ExecOutcome) :
    ModalState × Option (ℤ × Nat) × List ModalLog :=
  if !hasUI then (s, none, [.errorNoUI])
  else
    let s₁ : ModalState := { s with menuEnabled := false }
    let s₂ : ModalState := { s₁ with parentToMax := true }
    let widget : Nat := 0
    match exec with
    | .ok code =>
        ({ s₂ with menuEnabled := true }, some (code, widget), [])
    | .raises =>
        ({ s₂ with menuEnabled := true }, some (rejectedCode, widget),
          [.errorModalException])

/-! ## `MaxEngine.safe_dialog_exec`

A tracked dialog is modelled by its Qt object identity (`id`) and the
pieces of window state the method touches: `visible` (`isVisible` /
`hide` / `show`), `active` (`activateWindow`) and `raised` (`lower` /
`raise_`).  The guarded `func` is an opaque host operation; whether it
raises is a parameter, and the `finally` block runs either way, after
which the exception propagates. -/

structure Dialog where
  id : Nat
  visible : Bool
  active : Bool
  raised : Bool
  deriving Repr, DecidableEq

/-- `dialog.hide(); dialog.lower()` -/
def hideDialog (d : Dialog) : Dialog :=
  { d with visible := false, raised := false }

/-- `dialog.show(); dialog.activateWindow(); dialog.raise_()` -/
def restoreDialog (d : Dialog) : Dialog :=
  { d with visible := true, active := true, raised := true }

/-- One iteration of the first loop: test `isVisible`, and when set,
record the dialog in `toggled` and hide it. -/
def hideStep (acc : List Dialog × List Nat) (d : Dialog) :
    List Dialog × List Nat :=
  if d.visible then (acc.1 ++ [hideDialog d], acc.2 ++ [d.id])
  else (acc.1 ++ [d], acc.2)

/-- One iteration of the `finally` loop: show, activate and raise the
dialog recorded as toggled (identified by object identity). -/
def restoreStep (ds : List Dialog) (i : Nat) : List Dialog :=
  ds.map fun d => if d.id = i then restoreDialog d else d

/-- `safe_dialog_exec`: hide every visible tracked dialog, run `func`,
then restore the toggled dialogs in the `finally` block; the second
component reports whether the exception from `func` propagates. -/
def safe_dialog_exec (ds : List Dialog) (funcRaises : Bool) :
    List Dialog × Bool :=
  let hp := ds.foldl hideStep ([], [])
  (hp.2.foldl restoreStep hp.1, funcRaises)

/-! ## `MaxEngine.close_windows`

`created_qt_dialogs` is the external framework's list of the toolkit
dialogs still open; a successful `dialog.close()` runs the close
callback that removes the dialog from that list (and the engine's event
filter drops it from `_safe_dialog`).  A dock widget's `close()` runs
`DockWidget.closeEvent`, whose `closed` signal calls
`_remove_dock_widget`, dropping it from `_dock_widgets`.  Whether a
particular window's `close()` raises is an external condition carried
on the window.  The dialog loop wraps each close in `try/except`; the
dock-widget loop does not. -/

structure Window where
  id : Nat
  raisesOnClose : Bool
  deriving Repr, DecidableEq

inductive CloseEvent where
  | attemptedDialog (id : Nat)
  | errorClosingDialog (id : Nat)
  | attemptedDock (id : Nat)
  deriving Repr, DecidableEq

structure WindowsState where
  created_qt_dialogs : List Window
  dock_widgets : List Window
  deriving Repr, DecidableEq

/-- The dialog loop over the copy `opened_dialog_list`, threading the
live tracked list: a raising close is logged and the dialog stays
tracked; a successful close removes it from tracking. -/
def closeDialogsGo : List Window → List Window → List CloseEvent →
    List Window × List CloseEvent
  | [], tracked, evs => (tracked, evs)
  | w :: rest, tracked, evs =>
      if w.raisesOnClose then
        closeDialogsGo rest tracked
          (evs ++ [.attemptedDialog w.id, .errorClosingDialog w.id])
      else
        closeDialogsGo rest (tracked.erase w)
          (evs ++ [.attemptedDialog w.id])

/-- The dock-widget loop over the copy `self._dock_widgets[:]`: each
close removes the dock from tracking via the `closed` signal, but a
raising close propagates immediately (no `try/except` here); the last
component records whether an exception escaped. -/
def closeDocksGo : List Window → List Window → List CloseEvent →
    List Window × List CloseEvent × Bool
  | [], tracked, evs => (tracked, evs, false)
  | w :: rest, tracked, evs =>
      if w.raisesOnClose then (tracked, evs ++ [.attemptedDock w.id], true)
      else closeDocksGo rest (tracked.erase w)
        (evs ++ [.attemptedDock w.id])

/-- `close_windows()`: close the tracked dialogs, then the tracked dock
widgets.  Returns the remaining tracked windows, the attempt/error
trace, and whether an exception escaped. -/
def close_windows (s : WindowsState) :
    WindowsState × List CloseEvent × Bool :=
  let dlg := closeDialogsGo s.created_qt_dialogs s.created_qt_dialogs []
  let dck := closeDocksGo s.dock_widgets s.dock_widgets []
  (⟨dlg.1, dck.1⟩, dlg.2 ++ dck.2.1, dck.2.2)

/-! ## `MaxEngine._create_dialog` and `DialogEvents.eventFilter`

A dialog is identified by a number (Qt object identity).  The base
factory `sgtk.platform.Engine._create_dialog` is external and yields
the dialog already parented by default; `MaxPlus.AttachQWidgetToMax`
existing on this host is an external condition (`AttributeError` when
missing, upon which the previous parent is restored). -/

inductive QEvent where
  | windowActivate
  | windowDeactivate
  | close
  | other
  deriving Repr, DecidableEq

inductive DialogParent where
  | original
  | attachedToMax
  deriving Repr, DecidableEq

structure CreateState where
  safe_dialog : List Nat
  dock_widgets : List Nat
  deriving Repr, DecidableEq

/-- `_create_dialog`: run the base factory, attempt the version-gated
host attachment, install the event filter, and append the dialog to
`_safe_dialog` (the only tracking list it touches). -/
def create_dialog (parentToMax : Bool) (year : ℤ) (hasAttach : Bool)
    (s : CreateState) (d : Nat) : CreateState × DialogParent :=
  let parent :=
    if parentToMax ∧ year ≤ 2019 then
      if hasAttach then DialogParent.attachedToMax
      else DialogParent.original
    else DialogParent.original
  ({ s with safe_dialog := s.safe_dialog ++ [d] }, parent)

/-- `DialogEvents.eventFilter`: toggle the host accelerators on window
focus changes, remove a closing dialog from the tracked list when
present, and always return `False` (the event is not swallowed). -/
def eventFilter (accel : Bool) (safe : List Nat) (obj : Nat)
    (ev : QEvent) : Bool × List Nat × Bool :=
  let accel₁ :=
    match ev with
    | .windowActivate => false
    | .windowDeactivate => true
    | _ => accel
  let safe₁ :=
    if ev = .close then
      if obj ∈ safe then safe.erase obj else safe
    else safe
  (accel₁, safe₁, false)

/-- Repeated dict item assignment: insert each command of `cmds` into
the command dictionary `e` in order. -/
def dictInsertAll (e : List (String × Nat)) (cmds : List Command) :
    List (String × Nat) :=
  cmds.foldl (fun d c => dictSet d c.name c.callback) e

/-- Concrete registry of the spec example: app instance `A` registering
commands `x` and `y`. -/
def commandsA : List Command :=
  [⟨"x", some "A", 1⟩, ⟨"y", some "A", 2⟩]

/-! ## Theorems -/

theorem rnInt_intCast (m : ℤ) : rnInt (m : ℚ) = m := by
  norm_num [rnInt]

theorem rnInt_half (y : ℚ) :
    y - 1/2 ≤ (rnInt y : ℚ) ∧ (rnInt y : ℚ) ≤ y + 1/2 := by
  have h1 : (⌊y⌋ : ℚ) ≤ y := Int.floor_le y
  have h2 : y < ⌊y⌋ + 1 := Int.lt_floor_add_one y
  simp only [rnInt]
  split_ifs with ha hb hc <;> push_cast <;> constructor <;> linarith

theorem log2_eq_of {x : ℚ} {e : ℤ} (hx : 0 < x)
    (h1 : (2:ℚ) ^ e ≤ x) (h2 : x < (2:ℚ) ^ (e + 1)) :
    Int.log 2 x = e := by
  have ha := (Int.zpow_le_iff_le_log (b := 2) (by norm_num) hx).mp
    (by push_cast; exact h1)
  have hb := (Int.lt_zpow_iff_log_lt (b := 2) (by norm_num) hx).mp
    (by push_cast; exact h2)
  omega

theorem roundPos_intCast (m : ℤ) (h0 : 0 < m)
    (h53 : (m : ℚ) < 2 ^ (53:ℕ)) : roundPos (m : ℚ) = m := by
  have hx : (0:ℚ) < (m:ℚ) := by exact_mod_cast h0
  have hx1 : (1:ℚ) ≤ (m:ℚ) := by exact_mod_cast h0
  have he0 : 0 ≤ Int.log 2 (m:ℚ) :=
    (Int.zpow_le_iff_le_log (b := 2) (by norm_num) hx).mp (by simpa using hx1)
  have he53 : Int.log 2 (m:ℚ) < 53 :=
    (Int.lt_zpow_iff_log_lt (b := 2) (by norm_num) hx).mp
      (by push_cast; norm_num; exact h53)
  set e := Int.log 2 (m:ℚ) with he
  have hs : floatScale (m:ℚ) = e - 52 := by
    unfold floatScale
    exact max_eq_left (by omega)
  set k : ℕ := (52 - e).toNat with hk
  have hk2 : (52 - e : ℤ) = (k:ℤ) := (Int.toNat_of_nonneg (by omega)).symm
  have h2k : ((2:ℚ) ^ k) ≠ 0 := by positivity
  have hpow : (2:ℚ) ^ (e - 52 : ℤ) = ((2:ℚ) ^ k)⁻¹ := by
    rw [show e - 52 = -(52 - e) by ring, zpow_neg, hk2, zpow_natCast]
  have hdiv : (m:ℚ) / 2 ^ (e - 52 : ℤ) = ((m * 2 ^ k : ℤ) : ℚ) := by
    rw [hpow, div_eq_mul_inv, inv_inv]
    push_cast
    ring
  unfold roundPos
  rw [hs, hdiv, rnInt_intCast, hpow]
  push_cast
  field_simp

theorem roundDouble_of_pos {x : ℚ} (hx : 0 < x) :
    roundDouble x = roundPos x := by
  unfold roundDouble
  rw [if_pos hx]

theorem roundDouble_of_neg {x : ℚ} (hx : x < 0) :
    roundDouble x = -roundPos (-x) := by
  unfold roundDouble
  rw [if_neg (by linarith), if_pos hx]

theorem roundDouble_intCast (m : ℤ) (h : |m| < 2 ^ 53) :
    roundDouble (m : ℚ) = m := by
  obtain ⟨ha, hb⟩ := abs_lt.mp h
  rcases lt_trichotomy m 0 with hneg | rfl | hpos
  · have h1 : ((m:ℚ)) < 0 := by exact_mod_cast hneg
    rw [roundDouble_of_neg h1, show (-(m:ℚ)) = ((-m : ℤ) : ℚ) by push_cast; ring,
      roundPos_intCast (-m) (by omega)
        (by exact_mod_cast (by omega : -m < 2 ^ 53) : ((-m : ℤ):ℚ) < 2 ^ (53:ℕ))]
    push_cast
    ring
  · simp [roundDouble]
  · rw [roundDouble_of_pos (by exact_mod_cast hpos),
      roundPos_intCast m hpos
        (by exact_mod_cast hb : ((m : ℤ):ℚ) < 2 ^ (53:ℕ))]

theorem toDouble_intCast (m : ℤ) (h : |m| < 2 ^ 53) :
    toDouble m = some ((m : ℤ) : ℚ) := by
  obtain ⟨ha, hb⟩ := abs_lt.mp h
  have hcond : |((m : ℤ) : ℚ)| < 2 ^ (1024:ℕ) := by
    rw [abs_lt]
    constructor
    · have h1 : (-(9007199254740992:ℚ)) < (m:ℚ) := by
        exact_mod_cast (by omega : -(9007199254740992:ℤ) < m)
      have h2 : (-((2:ℚ) ^ (1024:ℕ))) ≤ -(9007199254740992:ℚ) := by norm_num
      linarith
    · have h1 : (m:ℚ) < (9007199254740992:ℚ) := by
        exact_mod_cast (by omega : m < 9007199254740992)
      have h2 : (9007199254740992:ℚ) ≤ (2:ℚ) ^ (1024:ℕ) := by norm_num
      linarith
  unfold toDouble
  rw [roundDouble_intCast m h, if_pos hcond]

theorem roundPos_err (x : ℚ) (hx : 0 < x)
    (hlog : -1022 ≤ Int.log 2 x) :
    x - 2 ^ (Int.log 2 x - 53) ≤ roundPos x ∧
    roundPos x ≤ x + 2 ^ (Int.log 2 x - 53) := by
  have hs : floatScale x = Int.log 2 x - 52 := max_eq_left (by omega)
  set s := Int.log 2 x - 52 with hsdef
  have h2s : (0:ℚ) < 2 ^ s := zpow_pos (by norm_num) s
  obtain ⟨hl, hr⟩ := rnInt_half (x / 2 ^ s)
  have hxx : x / 2 ^ s * 2 ^ s = x := div_mul_cancel₀ x (ne_of_gt h2s)
  have hhalf : (2:ℚ) ^ (Int.log 2 x - 53) = 1/2 * 2 ^ s := by
    rw [show Int.log 2 x - 53 = s - 1 by omega,
      zpow_sub₀ (by norm_num : (2:ℚ) ≠ 0), zpow_one]
    ring
  unfold roundPos
  rw [hs, hhalf]
  constructor
  · have hmul := mul_le_mul_of_nonneg_right hl h2s.le
    rw [sub_mul, hxx] at hmul
    linarith
  · have hmul := mul_le_mul_of_nonneg_right hr h2s.le
    rw [add_mul, hxx] at hmul
    linarith

theorem roundPos_div1000 (w : ℤ) (h0 : 0 < w) (h53 : (w:ℚ) < 2 ^ (53:ℕ)) :
    Int.ceil (roundPos ((w:ℚ)/1000)) = Int.ceil ((w:ℚ)/1000) ∧
    Int.floor (roundPos ((w:ℚ)/1000)) = Int.floor ((w:ℚ)/1000) := by
  have hw : (0:ℚ) < (w:ℚ) := by exact_mod_cast h0
  have hx : (0:ℚ) < (w:ℚ)/1000 := by positivity
  by_cases hdvd : (1000 : ℤ) ∣ w
  · obtain ⟨m, rfl⟩ := hdvd
    have hm0 : 0 < m := by omega
    have hmq : (0:ℚ) < (m:ℚ) := by exact_mod_cast hm0
    have hxm : ((1000 * m : ℤ):ℚ)/1000 = (m:ℚ) := by
      push_cast
      rw [mul_comm, mul_div_assoc]
      norm_num
    have hm53 : (m:ℚ) < 2 ^ (53:ℕ) := by
      have h1 : ((1000 * m : ℤ):ℚ) = 1000 * (m:ℚ) := by push_cast; ring
      rw [h1] at h53
      linarith
    rw [hxm, roundPos_intCast m hm0 hm53]
    exact ⟨rfl, rfl⟩
  · set q := w / 1000 with hq
    set k := w % 1000 with hk
    have hqk : 1000 * q + k = w := Int.ediv_add_emod w 1000
    have hk0 : 0 ≤ k := Int.emod_nonneg w (by norm_num)
    have hk1000 : k < 1000 := Int.emod_lt_of_pos w (by norm_num)
    have hkne : k ≠ 0 := by
      intro hzero
      exact hdvd (Int.dvd_of_emod_eq_zero (by rw [← hk]; exact hzero))
    have hq0 : 0 ≤ q := Int.ediv_nonneg (by omega) (by norm_num)
    have hcast : (w:ℚ) = 1000 * (q:ℚ) + (k:ℚ) := by exact_mod_cast hqk.symm
    have hxeq : (w:ℚ)/1000 = (q:ℚ) + (k:ℚ)/1000 := by rw [hcast]; ring
    have hkq1 : (1:ℚ) ≤ (k:ℚ) := by exact_mod_cast (by omega : 1 ≤ k)
    have hkq2 : (k:ℚ) ≤ 999 := by exact_mod_cast (by omega : k ≤ 999)
    have hq0Q : (0:ℚ) ≤ (q:ℚ) := by exact_mod_cast hq0
    have hxlow : (q:ℚ) + 1/1000 ≤ (w:ℚ)/1000 := by rw [hxeq]; linarith
    have hxhigh : (w:ℚ)/1000 ≤ (q:ℚ) + 999/1000 := by rw [hxeq]; linarith
    have helow : -10 ≤ Int.log 2 ((w:ℚ)/1000) := by
      apply (Int.zpow_le_iff_le_log (b := 2) (by norm_num) hx).mp
      push_cast
      rw [show ((2:ℚ) ^ (-10:ℤ)) = 1/1024 from by norm_num]
      linarith
    have hehigh : Int.log 2 ((w:ℚ)/1000) < 44 := by
      apply (Int.lt_zpow_iff_log_lt (b := 2) (by norm_num) hx).mp
      push_cast
      have h1 : (w:ℚ)/1000 < 2 ^ (53:ℕ) / 1000 := by
        gcongr
      have h2 : (2:ℚ) ^ (53:ℕ) / 1000 < 2 ^ (44:ℤ) := by
        rw [div_lt_iff₀ (by norm_num)]
        norm_num
      linarith
    have herr := roundPos_err ((w:ℚ)/1000) hx (by omega)
    have hulp : (2:ℚ) ^ (Int.log 2 ((w:ℚ)/1000) - 53) ≤ 1/1024 := by
      have h1 : (2:ℚ) ^ (Int.log 2 ((w:ℚ)/1000) - 53) ≤ 2 ^ (-10:ℤ) :=
        zpow_le_zpow_right₀ (by norm_num) (by omega)
      rw [show ((2:ℚ) ^ (-10:ℤ)) = 1/1024 from by norm_num] at h1
      exact h1
    have hceilx : ⌈(w:ℚ)/1000⌉ = q + 1 := by
      rw [Int.ceil_eq_iff]
      constructor
      · push_cast
        linarith
      · push_cast
        linarith
    have hfloorx : ⌊(w:ℚ)/1000⌋ = q := by
      rw [Int.floor_eq_iff]
      constructor
      · linarith
      · push_cast
        linarith
    have hRN1 : (q:ℚ) < roundPos ((w:ℚ)/1000) := by
      linarith [herr.1]
    have hRN2 : roundPos ((w:ℚ)/1000) < (q:ℚ) + 1 := by
      linarith [herr.2]
    constructor
    · rw [hceilx, Int.ceil_eq_iff]
      constructor
      · push_cast
        linarith
      · push_cast
        linarith
    · rw [hfloorx, Int.floor_eq_iff]
      constructor
      · linarith
      · push_cast
        linarith


theorem max_version_eval (v : ℤ) (fv : ℚ) (h : toDouble v = some fv) :
    max_version_to_year v =
      some (2000 + (Int.ceil (floatDiv fv 1000) - 2)) := by
  unfold max_version_to_year
  rw [h]

theorem max_version_overflow (v : ℤ) (h : toDouble v = none) :
    max_version_to_year v = none := by
  unfold max_version_to_year
  rw [h]

theorem toDouble_overflow (v : ℤ) (h : (2:ℚ) ^ (1025:ℕ) ≤ (v:ℚ)) :
    toDouble v = none := by
  have hx : (0:ℚ) < (v:ℚ) := lt_of_lt_of_le (by positivity) h
  have he0 : (1025:ℤ) ≤ Int.log 2 (v:ℚ) := by
    apply (Int.zpow_le_iff_le_log (b := 2) (by norm_num) hx).mp
    push_cast
    rw [show ((2:ℚ) ^ (1025:ℤ)) = 2 ^ (1025:ℕ) from by
      rw [show ((1025:ℤ)) = ((1025:ℕ):ℤ) from by norm_num, zpow_natCast]]
    exact h
  have hlowx : (2:ℚ) ^ Int.log 2 (v:ℚ) ≤ (v:ℚ) := by
    have h1 := Int.zpow_log_le_self (b := 2) (by norm_num) hx
    push_cast at h1
    exact h1
  have herr := roundPos_err (v:ℚ) hx (by omega)
  have hmono1 : (2:ℚ) ^ (Int.log 2 (v:ℚ) - 53) ≤ 2 ^ (Int.log 2 (v:ℚ) - 1) :=
    zpow_le_zpow_right₀ (by norm_num) (by omega)
  have hsplit : (2:ℚ) ^ Int.log 2 (v:ℚ) = 2 ^ (Int.log 2 (v:ℚ) - 1) * 2 := by
    rw [← zpow_add_one₀ (by norm_num : (2:ℚ) ≠ 0)]
    congr 1
    ring
  have hmono2 : (2:ℚ) ^ (1024:ℤ) ≤ 2 ^ (Int.log 2 (v:ℚ) - 1) :=
    zpow_le_zpow_right₀ (by norm_num) (by omega)
  have hnn : ((2:ℚ) ^ (1024:ℤ)) = 2 ^ (1024:ℕ) := by
    rw [show ((1024:ℤ)) = ((1024:ℕ):ℤ) from by norm_num, zpow_natCast]
  have hge : (2:ℚ) ^ (1024:ℕ) ≤ roundPos (v:ℚ) := by
    rw [← hnn]
    linarith [herr.1]
  unfold toDouble
  rw [roundDouble_of_pos hx,
    if_neg (not_lt.mpr (le_trans hge (le_abs_self _)))]

theorem toDouble_pow18 : toDouble (10 ^ 18 + 1) = some ((10:ℚ) ^ 18) := by
  have hcast : (((10 ^ 18 + 1 : ℤ)) : ℚ) = 10 ^ 18 + 1 := by push_cast; ring
  have hx : (0:ℚ) < ((10 ^ 18 + 1 : ℤ) : ℚ) := by rw [hcast]; norm_num
  have he : Int.log 2 ((10 ^ 18 + 1 : ℤ) : ℚ) = 59 := by
    apply log2_eq_of hx
    · rw [hcast]
      norm_num
    · rw [hcast]
      norm_num
  have hs : floatScale ((10 ^ 18 + 1 : ℤ) : ℚ) = 7 := by
    unfold floatScale
    rw [he]
    norm_num
  have h128 : (2:ℚ) ^ (7:ℤ) = 128 := by norm_num
  have hy : ((10 ^ 18 + 1 : ℤ) : ℚ) / 2 ^ (7:ℤ) =
      7812500000000000 + 1/128 := by
    rw [hcast, h128]
    norm_num
  have hfloor : ⌊(7812500000000000 + 1/128 : ℚ)⌋ = 7812500000000000 := by
    rw [Int.floor_eq_iff]
    constructor <;> norm_num
  have hrn : rnInt (7812500000000000 + 1/128 : ℚ) = 7812500000000000 := by
    simp only [rnInt, hfloor]
    norm_num
  unfold toDouble
  rw [roundDouble_of_pos hx]
  unfold roundPos
  rw [hs, hy, hrn, h128]
  norm_num

/-- C1, counterexample: `_max_version_to_year` is neither total nor the
exact formula on all integers: at `10^400` the int-to-double conversion
in `version / 1000.0` raises `OverflowError`, and at `10^18 + 1` double
rounding yields the year `10^15 + 1998` while the spec formula
`2000 + ceil(v/1000) - 2` gives `10^15 + 1999`. -/
theorem c1_version_to_year_counterexample :
    max_version_to_year (10 ^ 400) = none ∧
    max_version_to_year (10 ^ 18 + 1) = some (10 ^ 15 + 1998) ∧
    spec_version_to_year (10 ^ 18 + 1) = 10 ^ 15 + 1999 := by
  refine ⟨?_, ?_, ?_⟩
  · exact max_version_overflow _ (toDouble_overflow _ (by push_cast; norm_num))
  · rw [max_version_eval _ _ toDouble_pow18]
    unfold floatDiv
    rw [show ((10:ℚ) ^ 18)/1000 = ((10 ^ 15 : ℤ):ℚ) from by push_cast; norm_num,
      roundDouble_intCast (10 ^ 15) (by norm_num), Int.ceil_intCast]
    norm_num
  · unfold spec_version_to_year
    rw [show Int.ceil (((10 ^ 18 + 1 : ℤ):ℚ)/1000) = 10 ^ 15 + 1 from by
      rw [Int.ceil_eq_iff]
      constructor <;> push_cast <;> norm_num]
    norm_num

/-- C1, amended: for every integer version `v` of magnitude below
`2^53` — where int-to-double conversion is exact and the rounding error
of the double division cannot move the quotient across an integer —
`_max_version_to_year v` succeeds and returns exactly
`2000 + ceil(v/1000) - 2`; in particular it maps `17000` to `2015` and
`24000` to `2022`.  Beyond that range the conversion can raise
`OverflowError` and rounding can change the year. -/
theorem c1_version_to_year (v : ℤ) (hv : |v| < 2 ^ 53) :
    max_version_to_year v = some (spec_version_to_year v) := by
  obtain ⟨hvl, hvr⟩ := abs_lt.mp hv
  rw [max_version_eval v (v:ℚ) (toDouble_intCast v hv)]
  unfold spec_version_to_year floatDiv
  rcases lt_trichotomy v 0 with hneg | rfl | hpos
  · have hw0 : 0 < -v := by omega
    have hw53 : ((-v : ℤ) : ℚ) < 2 ^ (53:ℕ) := by
      exact_mod_cast (by omega : -v < 2 ^ 53)
    have hxneg : ((v:ℚ)/1000) < 0 := by
      apply div_neg_of_neg_of_pos
      · exact_mod_cast hneg
      · norm_num
    rw [roundDouble_of_neg hxneg,
      show -((v:ℚ)/1000) = ((-v : ℤ):ℚ)/1000 from by push_cast; ring,
      Int.ceil_neg, (roundPos_div1000 (-v) hw0 hw53).2,
      show ((-v : ℤ):ℚ)/1000 = -((v:ℚ)/1000) from by push_cast; ring,
      Int.floor_neg]
    congr 1
    ring
  · norm_num [roundDouble, floatDiv]
  · have hxpos : (0:ℚ) < (v:ℚ)/1000 := by
      apply div_pos
      · exact_mod_cast hpos
      · norm_num
    have hv53 : ((v : ℤ) : ℚ) < 2 ^ (53:ℕ) := by
      exact_mod_cast (by omega : v < 2 ^ 53)
    rw [roundDouble_of_pos hxpos, (roundPos_div1000 v hpos hv53).1]
    congr 1
    ring

/-- C1 witness: versions in the exact range: `17000` yields `2015` and
`24000` yields `2022`, and `17900` (the 2016-alpha marker mentioned in
the source docstring, not a multiple of 1000) yields `2016`. -/
theorem c1_version_to_year_witness :
    max_version_to_year 17000 = some 2015 ∧
    max_version_to_year 24000 = some 2022 ∧
    max_version_to_year 17900 = some 2016 := by
  refine ⟨?_, ?_, ?_⟩
  · rw [c1_version_to_year 17000 (by norm_num)]
    unfold spec_version_to_year
    rw [show (((17000:ℤ)):ℚ)/1000 = ((17:ℤ):ℚ) from by push_cast; norm_num,
      Int.ceil_intCast]
    norm_num
  · rw [c1_version_to_year 24000 (by norm_num)]
    unfold spec_version_to_year
    rw [show (((24000:ℤ)):ℚ)/1000 = ((24:ℤ):ℚ) from by push_cast; norm_num,
      Int.ceil_intCast]
    norm_num
  · rw [c1_version_to_year 17900 (by norm_num)]
    unfold spec_version_to_year
    rw [show Int.ceil (((17900:ℤ):ℚ)/1000) = 18 from by
      rw [Int.ceil_eq_iff]
      constructor <;> push_cast <;> norm_num]
    norm_num

theorem dictSet_fresh (d : List (String × Nat)) (k : String) (v : Nat)
    (h : k ∉ d.map Prod.fst) : dictSet d k v = d ++ [(k, v)] := by
  induction d with
  | nil => rfl
  | cons p rest ih =>
    obtain ⟨k₁, v₁⟩ := p
    simp only [List.map_cons, List.mem_cons, not_or] at h
    simp [dictSet, Ne.symm h.1, ih h.2]

theorem dictGet_setdefaultSet_same
    (reg : List (String × List (String × Nat))) (app k : String) (v : Nat) :
    dictGet (setdefaultSet reg app k v) app =
      some (dictSet ((dictGet reg app).getD []) k v) := by
  induction reg with
  | nil => simp [setdefaultSet, dictGet]
  | cons p rest ih =>
    obtain ⟨a, d⟩ := p
    by_cases h : a = app
    · subst h
      simp [setdefaultSet, dictGet]
    · simp [setdefaultSet, dictGet, h] at ih ⊢
      exact ih

theorem dictGet_setdefaultSet_other
    (reg : List (String × List (String × Nat))) (a app k : String)
    (v : Nat) (h : a ≠ app) :
    dictGet (setdefaultSet reg a k v) app = dictGet reg app := by
  induction reg with
  | nil => simp [setdefaultSet, dictGet, h]
  | cons p rest ih =>
    obtain ⟨a₁, d⟩ := p
    by_cases h₁ : a₁ = a
    · subst h₁
      simp [setdefaultSet, dictGet, h]
    · by_cases h₂ : a₁ = app
      · subst h₂
        simp [setdefaultSet, dictGet, h₁]
      · simp [setdefaultSet, dictGet, h₁, h₂] at ih ⊢
        exact ih

theorem dictGet_foldl (cmds : List Command)
    (reg : List (String × List (String × Nat))) (app : String) :
    dictGet (cmds.foldl registerStep reg) app =
      match dictGet reg app with
      | some e => some (dictInsertAll e (cmds.filter (fun c => c.app = some app)))
      | none =>
          if cmds.filter (fun c => c.app = some app) = [] then none
          else some (dictInsertAll [] (cmds.filter (fun c => c.app = some app))) := by
  induction cmds generalizing reg with
  | nil => cases h : dictGet reg app <;> simp [dictInsertAll, h]
  | cons c rest ih =>
    rw [List.foldl_cons]
    cases happ : c.app with
    | none =>
      have hreg : registerStep reg c = reg := by simp [registerStep, happ]
      have hf : (c :: rest).filter (fun c' => c'.app = some app) =
          rest.filter (fun c' => c'.app = some app) := by
        simp [List.filter_cons, happ]
      rw [hreg, hf]
      exact ih reg
    | some a =>
      have hstep : registerStep reg c = setdefaultSet reg a c.name c.callback := by
        simp [registerStep, happ]
      rw [hstep]
      by_cases ha : a = app
      · subst ha
        have hf : (c :: rest).filter (fun c' => c'.app = some a) =
            c :: rest.filter (fun c' => c'.app = some a) := by
          simp [List.filter_cons, happ]
        rw [ih (setdefaultSet reg a c.name c.callback),
          dictGet_setdefaultSet_same, hf]
        cases hold : dictGet reg a with
        | none => simp [dictInsertAll]
        | some e => simp [dictInsertAll]
      · have hf : (c :: rest).filter (fun c' => c'.app = some app) =
            rest.filter (fun c' => c'.app = some app) := by
          simp [List.filter_cons, happ, ha]
        rw [ih (setdefaultSet reg a c.name c.callback),
          dictGet_setdefaultSet_other _ _ _ _ _ ha, hf]

theorem dictInsertAll_fresh (cmds : List Command) (e : List (String × Nat))
    (hfresh : ∀ c ∈ cmds, c.name ∉ e.map Prod.fst)
    (hnd : (cmds.map Command.name).Nodup) :
    dictInsertAll e cmds = e ++ cmds.map (fun c => (c.name, c.callback)) := by
  induction cmds generalizing e with
  | nil => simp [dictInsertAll]
  | cons c rest ih =>
    have h1 : c.name ∉ e.map Prod.fst := hfresh c (List.mem_cons_self _ _)
    have hnd' : (rest.map Command.name).Nodup := (List.nodup_cons.mp hnd).2
    have hcn : c.name ∉ rest.map Command.name := (List.nodup_cons.mp hnd).1
    have hstep : dictInsertAll e (c :: rest) =
        dictInsertAll (dictSet e c.name c.callback) rest := by
      simp [dictInsertAll]
    rw [hstep, dictSet_fresh _ _ _ h1, ih _ ?_ hnd']
    · simp
    · intro c' hc'
      simp only [List.map_append, List.mem_append, List.map_cons,
        List.map_nil, List.mem_singleton, not_or]
      refine ⟨hfresh c' (List.mem_cons_of_mem _ hc'), ?_⟩
      intro heq
      exact hcn (heq ▸ List.mem_map_of_mem Command.name hc')

theorem dictGet_build (commands : List Command)
    (hnd : (commands.map Command.name).Nodup) (app : String) :
    dictGet (build_app_instance_commands commands) app =
      if registeredCommands commands app = [] then none
      else some (registeredCommands commands app) := by
  have h := dictGet_foldl commands [] app
  have hget : dictGet ([] : List (String × List (String × Nat))) app = none := rfl
  rw [hget] at h
  rw [build_app_instance_commands]
  rw [h]
  have hndf : ((commands.filter (fun c => c.app = some app)).map Command.name).Nodup :=
    hnd.sublist (List.Sublist.map _ (List.filter_sublist _))
  have hins : dictInsertAll [] (commands.filter (fun c => c.app = some app)) =
      registeredCommands commands app := by
    rw [dictInsertAll_fresh _ _ (by simp) hndf]
    simp [registeredCommands]
  by_cases hf : commands.filter (fun c => c.app = some app) = []
  · simp [hf, registeredCommands]
  · have hne : registeredCommands commands app ≠ [] := by
      simp [registeredCommands, hf]
    simp [hf, hne, hins]

theorem invoked_flatMap (app : String) (d : List (String × Nat)) :
    invokedCallbacks
        (d.flatMap fun c => [DispatchEvent.debugRun app c.1, .invoke c.2]) =
      d.map Prod.snd := by
  induction d with
  | nil => rfl
  | cons c rest ih =>
    simp only [List.flatMap_cons, invokedCallbacks, List.filterMap_append,
      List.filterMap_cons, List.map_cons] at ih ⊢
    simpa using ih

/-- C2: for a `run_at_startup` directive `(app, name)` dispatched
against registered commands with unique names (`self.commands` is a
dict): when the app instance registered no command, only an unknown-app
warning is emitted and nothing is invoked; when `name` is empty, every
command the app instance registered is invoked in registration order;
when `name` is registered, exactly that command is invoked; otherwise
only a warning listing the known command names is emitted and nothing
is invoked. -/
theorem c2_startup_dispatch (commands : List Command) (app name : String)
    (hnd : (commands.map Command.name).Nodup) :
    (registeredCommands commands app = [] →
      processDirective (build_app_instance_commands commands) app name =
        [.warnUnknownApp app]) ∧
    (registeredCommands commands app ≠ [] → name = "" →
      invokedCallbacks
          (processDirective (build_app_instance_commands commands) app name) =
        (registeredCommands commands app).map Prod.snd) ∧
    (∀ cb, registeredCommands commands app ≠ [] → name ≠ "" →
      cmdGet (registeredCommands commands app) name = some cb →
      processDirective (build_app_instance_commands commands) app name =
        [.debugRun app name, .invoke cb]) ∧
    (registeredCommands commands app ≠ [] → name ≠ "" →
      cmdGet (registeredCommands commands app) name = none →
      processDirective (build_app_instance_commands commands) app name =
        [.warnUnknownCommand app name
          ((registeredCommands commands app).map Prod.fst)]) := by
  have hb := dictGet_build commands hnd app
  refine ⟨?_, ?_, ?_, ?_⟩
  · intro h0
    rw [processDirective, hb]
    simp [h0]
  · intro h0 hname
    subst hname
    rw [processDirective, hb]
    simp [h0, invoked_flatMap]
  · intro cb h0 hname hcb
    rw [processDirective, hb]
    simp [h0, hname, hcb]
  · intro h0 hname hcb
    rw [processDirective, hb]
    simp [h0, hname, hcb]

/-- C2 witness: with registry `A` mapping `x` to callback `1` and `y`
to callback `2`: the empty name invokes both callbacks in registration
order, name `x` invokes exactly callback `1`, and the unregistered app
`B` yields only a warning with no invocation. -/
theorem c2_startup_dispatch_witness :
    invokedCallbacks
        (processDirective (build_app_instance_commands commandsA) "A" "") =
      [1, 2] ∧
    processDirective (build_app_instance_commands commandsA) "A" "x" =
      [.debugRun "A" "x", .invoke 1] ∧
    processDirective (build_app_instance_commands commandsA) "B" "y" =
      [.warnUnknownApp "B"] := by
  refine ⟨?_, ?_, ?_⟩
  · have h := (c2_startup_dispatch commandsA "A" "" (by decide)).2.1
      (by decide) rfl
    rw [h]
    decide
  · exact (c2_startup_dispatch commandsA "A" "x" (by decide)).2.2.1 1
      (by decide) (by decide) (by decide)
  · exact (c2_startup_dispatch commandsA "B" "y" (by decide)).1 (by decide)

theorem findChild_cons (dw : DockWidget) (rest : List DockWidget)
    (m : String) :
    findChild (dw :: rest) m =
      if dw.objectName = m then some dw else findChild rest m := by
  unfold findChild
  by_cases h : dw.objectName = m <;> simp [List.find?_cons, h]

theorem dockUpdate_objectName (r : List String) (n : String)
    (dw : DockWidget) : (dockUpdate r n dw).objectName = dw.objectName := by
  unfold dockUpdate
  by_cases h2 : dw.objectName = n
  · by_cases h3 : n ∈ r <;> simp [h2, h3]
  · simp [h2]

theorem dockUpdate_widgetId (r : List String) (n : String)
    (dw : DockWidget) : (dockUpdate r n dw).widgetId = dw.widgetId := by
  unfold dockUpdate
  by_cases h2 : dw.objectName = n
  · by_cases h3 : n ∈ r <;> simp [h2, h3]
  · simp [h2]

theorem findChild_dockAndShow (ch : List DockWidget) (r : List String)
    (n m : String) :
    findChild (dockAndShow ch r n) m =
      (findChild ch m).map (dockUpdate r n) := by
  induction ch with
  | nil => rfl
  | cons dw rest ih =>
    simp only [dockAndShow, List.map_cons] at ih ⊢
    rw [findChild_cons, findChild_cons, dockUpdate_objectName]
    by_cases h4 : dw.objectName = m <;> simp [h4, ih]

theorem findChild_append_right (ch : List DockWidget) (dw : DockWidget)
    (m : String) (h : findChild ch m = none) (hdw : dw.objectName = m) :
    findChild (ch ++ [dw]) m = some dw := by
  unfold findChild at h ⊢
  simp [List.find?_append, h, hdw]

theorem show_panel_found (year : ℤ) (s : PanelState) (panel_id : String)
    (hy : ¬ year ≤ 2017) (dw : DockWidget)
    (hfind : findChild s.children (dock_widget_id panel_id) = some dw) :
    show_panel year s panel_id =
      ({ s with children :=
          dockAndShow s.children s.restorable (dock_widget_id panel_id) },
        .docked dw.widgetId) := by
  unfold show_panel
  simp [hy, hfind]

theorem show_panel_new (year : ℤ) (s : PanelState) (panel_id : String)
    (hy : ¬ year ≤ 2017)
    (hfind : findChild s.children (dock_widget_id panel_id) = none) :
    show_panel year s panel_id =
      ({ s with
          children := dockAndShow
            (s.children ++
              [⟨dock_widget_id panel_id, s.nextWidgetId, false, false⟩])
            s.restorable (dock_widget_id panel_id)
          dock_widgets := s.dock_widgets ++ [dock_widget_id panel_id]
          nextWidgetId := s.nextWidgetId + 1 },
        .docked s.nextWidgetId) := by
  unfold show_panel
  simp [hy, hfind]

/-- C4: on hosts where docking is supported (year above 2017),
`show_panel` is idempotent with respect to `panel_id`: a dock widget
wrapper carrying the derived identifier already present in the main
window's child hierarchy is reused, and two consecutive calls with the
same `panel_id` return the same underlying widget instance. -/
theorem c4_show_panel_idempotent (year : ℤ) (s : PanelState)
    (panel_id : String) (hyear : 2017 < year) :
    ∃ w : Nat,
      (show_panel year s panel_id).2 = .docked w ∧
      (show_panel year (show_panel year s panel_id).1 panel_id).2 =
        .docked w := by
  have hy : ¬ year ≤ 2017 := not_le.mpr hyear
  cases hfind : findChild s.children (dock_widget_id panel_id) with
  | none =>
    refine ⟨s.nextWidgetId, ?_, ?_⟩
    · rw [show_panel_new year s panel_id hy hfind]
    · rw [show_panel_new year s panel_id hy hfind]
      have h1 : findChild
          (s.children ++
            [⟨dock_widget_id panel_id, s.nextWidgetId, false, false⟩])
          (dock_widget_id panel_id) =
          some ⟨dock_widget_id panel_id, s.nextWidgetId, false, false⟩ :=
        findChild_append_right _ _ _ hfind rfl
      have h2 := findChild_dockAndShow
        (s.children ++
          [⟨dock_widget_id panel_id, s.nextWidgetId, false, false⟩])
        s.restorable (dock_widget_id panel_id) (dock_widget_id panel_id)
      rw [h1, Option.map_some'] at h2
      rw [show_panel_found year _ panel_id hy _ h2, dockUpdate_widgetId]
  | some dw =>
    refine ⟨dw.widgetId, ?_, ?_⟩
    · rw [show_panel_found year s panel_id hy dw hfind]
    · rw [show_panel_found year s panel_id hy dw hfind]
      have h2 := findChild_dockAndShow s.children s.restorable
        (dock_widget_id panel_id) (dock_widget_id panel_id)
      rw [hfind, Option.map_some'] at h2
      rw [show_panel_found year _ panel_id hy _ h2, dockUpdate_widgetId]

/-- C4 witness: a fresh state, host year 2020: both calls return the
widget instance created by the first call. -/
theorem c4_show_panel_idempotent_witness :
    ∃ w : Nat,
      (show_panel 2020 ⟨[], [], 0, []⟩ "p").2 = .docked w ∧
      (show_panel 2020 (show_panel 2020 ⟨[], [], 0, []⟩ "p").1 "p").2 =
        .docked w :=
  c4_show_panel_idempotent 2020 ⟨[], [], 0, []⟩ "p" (by norm_num)

/-- C10: when the dock widget wrapper for `panel_id` already exists in
the child hierarchy, `show_panel` constructs no new widget (the
allocator is untouched), leaves the tracked dock-widget list unchanged
(nothing appended, nothing removed), and returns the existing panel
widget. -/
theorem c10_show_panel_existing (year : ℤ) (s : PanelState)
    (panel_id : String) (hy : 2017 < year) (dw : DockWidget)
    (hfind : findChild s.children (dock_widget_id panel_id) = some dw) :
    (show_panel year s panel_id).1.dock_widgets = s.dock_widgets ∧
    (show_panel year s panel_id).1.nextWidgetId = s.nextWidgetId ∧
    (show_panel year s panel_id).2 = .docked dw.widgetId := by
  rw [show_panel_found year s panel_id (not_le.mpr hy) dw hfind]
  exact ⟨rfl, rfl, rfl⟩

/-- C10 witness: the wrapper for panel `p` exists with widget `7`;
the call neither allocates a widget nor changes the tracked list. -/
theorem c10_show_panel_existing_witness :
    (show_panel 2019
        ⟨[⟨"sgtk_dock_widget_p", 7, false, true⟩],
          ["sgtk_dock_widget_p"], 8, []⟩ "p").1.dock_widgets =
      ["sgtk_dock_widget_p"] ∧
    (show_panel 2019
        ⟨[⟨"sgtk_dock_widget_p", 7, false, true⟩],
          ["sgtk_dock_widget_p"], 8, []⟩ "p").1.nextWidgetId = 8 ∧
    (show_panel 2019
        ⟨[⟨"sgtk_dock_widget_p", 7, false, true⟩],
          ["sgtk_dock_widget_p"], 8, []⟩ "p").2 = .docked 7 :=
  c10_show_panel_existing 2019
    ⟨[⟨"sgtk_dock_widget_p", 7, false, true⟩],
      ["sgtk_dock_widget_p"], 8, []⟩ "p" (by norm_num)
    ⟨"sgtk_dock_widget_p", 7, false, true⟩ (by decide)

/-- C5: with a UI present, `show_modal` re-enables the in-host menu
after the modal dialog whether the exec succeeded or raised, and
returns a (status, widget) pair; an exception raised while running the
modal dialog is caught, logged, and yields the Rejected status. -/
theorem c5_show_modal (s : ModalState) (exec : ExecOutcome) :
    (show_modal true s exec).1.menuEnabled = true ∧
    (show_modal true s exec).2.1.isSome = true ∧
    (∀ code, exec = .ok code →
      (show_modal true s exec).2 = (some (code, 0), [])) ∧
    (exec = .raises →
      (show_modal true s exec).2 =
        (some (rejectedCode, 0), [.errorModalException])) := by
  cases exec <;> simp [show_modal, rejectedCode]

/-- C5 witness: the exec raises; the menu ends re-enabled and the
returned pair carries the Rejected status with the created widget. -/
theorem c5_show_modal_witness :
    (show_modal true ⟨true, true⟩ .raises).1.menuEnabled = true ∧
    (show_modal true ⟨true, true⟩ .raises).2 =
      (some (rejectedCode, 0), [.errorModalException]) :=
  ⟨(c5_show_modal ⟨true, true⟩ .raises).1,
   (c5_show_modal ⟨true, true⟩ .raises).2.2.2 rfl⟩

/-- C9: without a UI, `show_modal` logs an error and returns `None`
rather than a (status, widget) pair, and the engine state — in
particular the in-host menu — is untouched: neither disabled nor
re-enabled. -/
theorem c9_show_modal_no_ui (s : ModalState) (exec : ExecOutcome) :
    show_modal false s exec = (s, none, [.errorNoUI]) := rfl

theorem closeDialogsGo_events (todo tracked : List Window)
    (evs : List CloseEvent) :
    (closeDialogsGo todo tracked evs).2 =
      evs ++ todo.flatMap (fun w =>
        if w.raisesOnClose then
          [.attemptedDialog w.id, .errorClosingDialog w.id]
        else [.attemptedDialog w.id]) := by
  induction todo generalizing tracked evs with
  | nil => simp [closeDialogsGo]
  | cons w rest ih =>
    by_cases h : w.raisesOnClose <;>
      simp [closeDialogsGo, h, ih, List.flatMap_cons, List.append_assoc]

theorem closeDialogsGo_tracked (todo tracked : List Window)
    (evs : List CloseEvent) :
    (closeDialogsGo todo tracked evs).1 =
      (todo.filter (fun w => !w.raisesOnClose)).foldl List.erase tracked := by
  induction todo generalizing tracked evs with
  | nil => simp [closeDialogsGo]
  | cons w rest ih =>
    by_cases h : w.raisesOnClose <;>
      simp [closeDialogsGo, h, ih, List.filter_cons]

theorem foldl_erase_cons_of_not_mem {α : Type} [DecidableEq α]
    (ws : List α) (x : α) (t : List α) (h : x ∉ ws) :
    ws.foldl List.erase (x :: t) = x :: ws.foldl List.erase t := by
  induction ws generalizing t with
  | nil => rfl
  | cons a rest ih =>
    simp only [List.mem_cons, not_or] at h
    rw [List.foldl_cons, List.foldl_cons,
      List.erase_cons_tail (by simpa using h.1)]
    exact ih _ h.2

theorem foldl_erase_filter {α : Type} [DecidableEq α] (p : α → Bool)
    (l : List α) (hnd : l.Nodup) :
    (l.filter p).foldl List.erase l = l.filter (fun x => !p x) := by
  induction l with
  | nil => rfl
  | cons x rest ih =>
    have hx : x ∉ rest := (List.nodup_cons.mp hnd).1
    have hnd' : rest.Nodup := (List.nodup_cons.mp hnd).2
    by_cases h : p x
    · rw [List.filter_cons_of_pos (by simpa using h), List.foldl_cons,
        List.erase_cons_head, ih hnd', List.filter_cons_of_neg (by simp [h])]
    · rw [List.filter_cons_of_neg (by simpa using h),
        foldl_erase_cons_of_not_mem _ _ _
          (fun hmem => hx (List.mem_filter.mp hmem).1),
        ih hnd', List.filter_cons_of_pos (by simp [h])]

theorem closeDocksGo_all_ok (todo tracked : List Window)
    (evs : List CloseEvent)
    (h : ∀ w ∈ todo, w.raisesOnClose = false) :
    closeDocksGo todo tracked evs =
      (todo.foldl List.erase tracked,
        evs ++ todo.map (fun w => CloseEvent.attemptedDock w.id), false) := by
  induction todo generalizing tracked evs with
  | nil => simp [closeDocksGo]
  | cons w rest ih =>
    have hw : w.raisesOnClose = false := h w (List.mem_cons_self _ _)
    simp [closeDocksGo, hw,
      ih _ _ (fun w' hw' => h w' (List.mem_cons_of_mem _ hw')),
      List.append_assoc]

/-- C6, counterexample: with no tracked dialog and two tracked dock
widgets of which the first raises on close, the second tracked window
is never attempted and both stay tracked — so it is not the case that
a failing close of any one entry still lets the remaining entries be
processed. -/
theorem c6_close_windows_counterexample :
    (close_windows ⟨[], [⟨0, true⟩, ⟨1, false⟩]⟩).2.1 =
      [CloseEvent.attemptedDock 0] ∧
    CloseEvent.attemptedDock 1 ∉
      (close_windows ⟨[], [⟨0, true⟩, ⟨1, false⟩]⟩).2.1 ∧
    (close_windows ⟨[], [⟨0, true⟩, ⟨1, false⟩]⟩).1.dock_widgets =
      [⟨0, true⟩, ⟨1, false⟩] ∧
    (close_windows ⟨[], [⟨0, true⟩, ⟨1, false⟩]⟩).2.2 = true := by
  decide

/-- C6, amended: `close_windows` attempts to close every tracked
dialog; a dialog close failure is logged individually and the remaining
dialogs are still processed, so on N tracked dialogs where one raises
all N are attempted and the surviving N−1 are removed from tracking.
The tracked dock widgets are then closed in order, but without
per-entry error handling: when none raises they are all attempted and
removed, while a raising dock close propagates and aborts the rest. -/
theorem c6_close_windows (dialogs docks : List Window)
    (hd : dialogs.Nodup) (hk : docks.Nodup) :
    (∀ w ∈ dialogs, CloseEvent.attemptedDialog w.id ∈
      (close_windows ⟨dialogs, docks⟩).2.1) ∧
    (∀ w ∈ dialogs, w.raisesOnClose = true →
      CloseEvent.errorClosingDialog w.id ∈
        (close_windows ⟨dialogs, docks⟩).2.1) ∧
    ((close_windows ⟨dialogs, docks⟩).1.created_qt_dialogs =
      dialogs.filter (fun w => w.raisesOnClose)) ∧
    ((∀ w ∈ docks, w.raisesOnClose = false) →
      (close_windows ⟨dialogs, docks⟩).1.dock_widgets = [] ∧
      (∀ w ∈ docks, CloseEvent.attemptedDock w.id ∈
        (close_windows ⟨dialogs, docks⟩).2.1) ∧
      (close_windows ⟨dialogs, docks⟩).2.2 = false) := by
  refine ⟨?_, ?_, ?_, ?_⟩
  · intro w hw
    simp only [close_windows, closeDialogsGo_events, List.nil_append,
      List.mem_append]
    left
    refine List.mem_flatMap.mpr ⟨w, hw, ?_⟩
    by_cases h : w.raisesOnClose <;> simp [h]
  · intro w hw hr
    simp only [close_windows, closeDialogsGo_events, List.nil_append,
      List.mem_append]
    left
    refine List.mem_flatMap.mpr ⟨w, hw, ?_⟩
    simp [hr]
  · simp only [close_windows, closeDialogsGo_tracked]
    rw [foldl_erase_filter _ _ hd]
    simp
  · intro hok
    have h1 := closeDocksGo_all_ok docks docks [] hok
    have h2 : docks.foldl List.erase docks = [] := by
      have h3 := foldl_erase_filter (fun _ => true) docks hk
      simpa using h3
    refine ⟨?_, ?_, ?_⟩
    · simp [close_windows, h1, h2]
    · intro w hw
      simp only [close_windows, h1, List.nil_append, List.mem_append]
      right
      exact List.mem_map_of_mem _ hw
    · simp [close_windows, h1]

/-- C6 witness: three tracked dialogs of which the middle one raises
and one well-behaved tracked dock widget: all three dialogs are
attempted, the failure is logged, only the raising dialog stays
tracked, and the dock widget is attempted and removed. -/
theorem c6_close_windows_witness :
    CloseEvent.attemptedDialog 0 ∈
      (close_windows ⟨[⟨0, false⟩, ⟨1, true⟩, ⟨2, false⟩],
        [⟨3, false⟩]⟩).2.1 ∧
    CloseEvent.attemptedDialog 1 ∈
      (close_windows ⟨[⟨0, false⟩, ⟨1, true⟩, ⟨2, false⟩],
        [⟨3, false⟩]⟩).2.1 ∧
    CloseEvent.attemptedDialog 2 ∈
      (close_windows ⟨[⟨0, false⟩, ⟨1, true⟩, ⟨2, false⟩],
        [⟨3, false⟩]⟩).2.1 ∧
    CloseEvent.errorClosingDialog 1 ∈
      (close_windows ⟨[⟨0, false⟩, ⟨1, true⟩, ⟨2, false⟩],
        [⟨3, false⟩]⟩).2.1 ∧
    (close_windows ⟨[⟨0, false⟩, ⟨1, true⟩, ⟨2, false⟩],
        [⟨3, false⟩]⟩).1.created_qt_dialogs = [⟨1, true⟩] ∧
    (close_windows ⟨[⟨0, false⟩, ⟨1, true⟩, ⟨2, false⟩],
        [⟨3, false⟩]⟩).1.dock_widgets = [] := by
  have h := c6_close_windows [⟨0, false⟩, ⟨1, true⟩, ⟨2, false⟩]
    [⟨3, false⟩] (by decide) (by decide)
  refine ⟨h.1 ⟨0, false⟩ (by decide), h.1 ⟨1, true⟩ (by decide),
    h.1 ⟨2, false⟩ (by decide), h.2.1 ⟨1, true⟩ (by decide) rfl, ?_,
    (h.2.2.2 (by decide)).1⟩
  rw [h.2.2.1]
  decide

/-- C7: a dialog produced by the engine's dialog factory is appended to
the safe-dialog tracking list exactly once, the dock-widget list being
untouched; it is removed from that list exactly once: the event filter
removes it on a Close event, after which the list is back to its
previous value, holds no copy of the dialog, and a repeated Close
leaves it unchanged. -/
theorem c7_dialog_tracking (parentToMax : Bool) (year : ℤ)
    (hasAttach accel : Bool) (s : CreateState) (d : Nat)
    (hfresh : d ∉ s.safe_dialog) :
    ((create_dialog parentToMax year hasAttach s d).1.safe_dialog.count d
      = 1) ∧
    ((create_dialog parentToMax year hasAttach s d).1.dock_widgets =
      s.dock_widgets) ∧
    ((eventFilter accel
        (create_dialog parentToMax year hasAttach s d).1.safe_dialog d
        .close).2.1 = s.safe_dialog) ∧
    ((eventFilter accel s.safe_dialog d .close).2.1 = s.safe_dialog) := by
  refine ⟨?_, rfl, ?_, ?_⟩
  · simp [create_dialog, List.count_append,
      List.count_eq_zero_of_not_mem hfresh]
  · have hmem : d ∈ s.safe_dialog ++ [d] :=
      List.mem_append_right _ (by simp)
    simp [create_dialog, eventFilter, hmem,
      List.erase_append_right _ hfresh]
  · simp [eventFilter, hfresh]

/-- C7 witness: dialog `7` created over a tracked list `[5]`: tracked
once, dock list untouched, removed by the first Close and absent for
the second. -/
theorem c7_dialog_tracking_witness :
    ((create_dialog true 2019 false ⟨[5], [9]⟩ 7).1.safe_dialog.count 7
      = 1) ∧
    ((create_dialog true 2019 false ⟨[5], [9]⟩ 7).1.dock_widgets =
      [9]) ∧
    ((eventFilter true
        (create_dialog true 2019 false ⟨[5], [9]⟩ 7).1.safe_dialog 7
        .close).2.1 = [5]) ∧
    ((eventFilter true [5] 7 .close).2.1 = [5]) :=
  c7_dialog_tracking true 2019 false true ⟨[5], [9]⟩ 7 (by decide)

theorem hide_foldl (ds : List Dialog) (acc : List Dialog × List Nat) :
    ds.foldl hideStep acc =
      (acc.1 ++ ds.map (fun d => if d.visible then hideDialog d else d),
       acc.2 ++ (ds.filter (fun d => d.visible)).map Dialog.id) := by
  induction ds generalizing acc with
  | nil => simp
  | cons d rest ih =>
    simp only [List.foldl_cons, ih]
    by_cases h : d.visible <;>
      simp [hideStep, h, List.append_assoc]

theorem restoreDialog_id (d : Dialog) : (restoreDialog d).id = d.id := rfl

theorem restoreDialog_idem (d : Dialog) :
    restoreDialog (restoreDialog d) = restoreDialog d := rfl

theorem restore_foldl (t : List Nat) (l : List Dialog) :
    t.foldl restoreStep l =
      l.map (fun d => if d.id ∈ t then restoreDialog d else d) := by
  induction t generalizing l with
  | nil => simp
  | cons a t ih =>
    simp only [List.foldl_cons, restoreStep, ih, List.map_map]
    apply List.map_congr_left
    intro d _
    by_cases h : d.id = a
    · simp [Function.comp, h, restoreDialog_id, restoreDialog_idem]
    · simp [Function.comp, h, List.mem_cons]

/-- C3: `safe_dialog_exec` hides exactly the tracked dialogs that are
visible at entry (hide phase), and afterwards restores visibility and
activation of exactly those dialogs, leaving the already-hidden ones
untouched, with the exception from `func` (when any) propagating after
the restoration. -/
theorem c3_safe_dialog_exec (ds : List Dialog) (funcRaises : Bool)
    (hids : (ds.map Dialog.id).Nodup) :
    safe_dialog_exec ds funcRaises =
      (ds.map (fun d => if d.visible then restoreDialog d else d),
       funcRaises) ∧
    (ds.foldl hideStep ([], [])).1 =
      ds.map (fun d => if d.visible then hideDialog d else d) := by
  constructor
  · simp only [safe_dialog_exec, hide_foldl, restore_foldl, List.nil_append,
      List.map_map, Prod.mk.injEq, and_true]
    apply List.map_congr_left
    intro d hd
    by_cases h : d.visible
    · have hmem : d.id ∈ (ds.filter (fun d => d.visible)).map Dialog.id :=
        List.mem_map_of_mem _ (List.mem_filter.mpr ⟨hd, by simp [h]⟩)
      simp [Function.comp, h, hideDialog, hmem, restoreDialog]
    · have hnot : d.id ∉ (ds.filter (fun d => d.visible)).map Dialog.id := by
        intro hmem
        obtain ⟨d', hd', hid⟩ := List.mem_map.mp hmem
        obtain ⟨hd'mem, hvis⟩ := List.mem_filter.mp hd'
        have : d' = d := List.inj_on_of_nodup_map hids hd'mem hd hid
        subst this
        simp [h] at hvis
      simp [Function.comp, h, hnot]
  · rw [hide_foldl]
    simp

/-- C3 witness: two tracked dialogs, only the first visible, guarded
action raises: the first is hidden then restored and activated, the
second stays hidden, and the exception propagates. -/
theorem c3_safe_dialog_exec_witness :
    safe_dialog_exec
        [⟨0, true, false, false⟩, ⟨1, false, false, false⟩] true =
      ([⟨0, true, true, true⟩, ⟨1, false, false, false⟩], true) := by
  have h := (c3_safe_dialog_exec
    [⟨0, true, false, false⟩, ⟨1, false, false, false⟩] true (by decide)).1
  simpa [restoreDialog] using h

/-- C8, counterexample: it is not the case that every message emitted by
`_emit_log_message` carries a nonempty elapsed-time prefix in front of
the handler-formatted text: with the handler formatting the record to
`hello` the console receives exactly `hello`, with nothing prepended by
this code. -/
theorem c8_no_elapsed_stamp_counterexample :
    ¬ ∃ stamp : String, stamp ≠ "" ∧
      emit_log_message [] (fun _ => "hello") 0 = [stamp ++ "hello"] := by
  rintro ⟨stamp, hne, heq⟩
  have h : "hello" = stamp ++ "hello" := by
    simpa [emit_log_message, print_output] using heq
  have hdata : stamp.data ++ "hello".data = "hello".data := by
    simpa [String.data_append] using (congrArg String.data h).symm
  have hnil : stamp.data = [] := by
    have h2 : stamp.data ++ "hello".data = [] ++ "hello".data := by
      simpa using hdata
    exact List.append_cancel_right h2
  exact hne (String.ext (by simp [hnil]))

/-- C8, amended: every log message emitted through `_emit_log_message`
is the handler-formatted record, appended unconditionally to the host
console: no prefix is added by this code, and no buffering or
level-based filtering occurs in this code. -/
theorem c8_log_unconditional (console : List String)
    (format : Nat → String) (record : Nat) :
    emit_log_message console format record = console ++ [format record] := by
  rfl

end TkMax
